import Mathlib

/-!
# Verification of the Steam-catalog analysis core

A shallow embedding of the repository's normalization pipeline
(`data_processor.py: load_and_preprocess_data`) and query engine
(`analysis_functions.py`, Q1–Q5), together with theorems settling the
specification claims.

Modelling conventions:
* pandas cell values are modelled by `PyVal` (string / bool / int / float /
  NaN / datetime); floats are modelled by `ℚ`.
* A raw `DataFrame` is modelled column-oriented, as an association list from
  column name to the list of cell values (`Frame`), which is how pandas
  itself stores frames; `df[c]` is association lookup and `df[c] = v` is
  replace-or-append.
* The Canonical Table handed to the query functions is modelled by
  `List GameRec` with the field types of spec §3.
* Python-level string processing (`str.strip`, `str.split`, `float(...)`,
  `str.contains` with a regular-expression pattern) is modelled over
  `List Char`.
* `pandas.sort_values` over one or more keys with `np.lexsort` semantics is a
  stable sort; any two stable sorts by the same total preorder agree
  extensionally, so it is embedded as `List.insertionSort` (structural, hence
  executable in the kernel).
* Dates are encoded as `yyyymmdd` integers: chronological order coincides
  with numeric order and the year is recovered by division by 10000.
-/

namespace Steam

/-- Equality of `Except` results is decidable (needed to evaluate the
embedded fallible functions on concrete inputs). -/
instance {ε α : Type} [DecidableEq ε] [DecidableEq α] :
    DecidableEq (Except ε α) := fun x y =>
  match x, y with
  | .error e, .error e' =>
    if h : e = e' then .isTrue (by rw [h]) else .isFalse (by simp [h])
  | .ok a, .ok a' =>
    if h : a = a' then .isTrue (by rw [h]) else .isFalse (by simp [h])
  | .error _, .ok _ => .isFalse (by simp)
  | .ok _, .error _ => .isFalse (by simp)

/-! ## Char-list string helpers (Python `str` methods) -/

/-- Lower-casing, as used by `case=False` regex matching (`str.contains`). -/
def lowerL (s : List Char) : List Char := s.map Char.toLower

/-- Whitespace test for `str.strip`. -/
def isWs (c : Char) : Bool := c == ' ' || c == '\t' || c == '\n' || c == '\r'

/-- Python `str.strip()`: drop whitespace from both ends. -/
def trimL (s : List Char) : List Char :=
  ((s.dropWhile isWs).reverse.dropWhile isWs).reverse

/-- Split a char list at every occurrence of one of the delimiter characters,
as `pandas.Series.str.split` with the regex pattern `';|,'` does (the pattern
matches exactly one `';'` or one `','`).  Delimiters are consumed; adjacent
delimiters yield empty segments, like `re.split`. -/
def splitDelims (delims : List Char) : List Char → List (List Char)
  | [] => [[]]
  | c :: rest =>
    if delims.contains c then [] :: splitDelims delims rest
    else
      match splitDelims delims rest with
      | [] => [[c]]
      | seg :: segs => (c :: seg) :: segs

/-- The first segment of Python `s.split(sep)` for a non-empty separator:
everything before the first occurrence of `sep` (the whole string when `sep`
does not occur).  Only the first segment of the range split is ever used by
`clean_estimated_owners`. -/
def takeUntilSep (sep : List Char) : List Char → List Char
  | [] => []
  | c :: rest =>
    if sep.isPrefixOf (c :: rest) then [] else c :: takeUntilSep sep rest

/-- Numeric value of a digit list (most significant first). -/
def digitsVal (l : List Char) : ℕ := l.foldl (fun a c => a * 10 + (c.toNat - 48)) 0

/-! ## Kernel-computable rational arithmetic

The Batteries implementations of `Rat.add`, `Rat.mul`, `Rat.sub`, `Rat.inv`
are `@[irreducible]`, so terms built from them cannot be evaluated by
`decide`/`rfl` on concrete inputs.  The embedding therefore computes with
the following `mkRat`-based operations; `qadd_eq`, `qsub_eq`, `qmul_eq`,
`qdivNat_eq`, `qsum_eq` prove them equal to the standard field operations
on `ℚ`, so these are the exact rational operations, merely in an
executable spelling (the only divisions performed by the program have
nonnegative integer divisors: lengths of lists and powers of ten). -/

/-- Rational addition, executable spelling. -/
def qadd (a b : ℚ) : ℚ := mkRat (a.num * b.den + b.num * a.den) (a.den * b.den)

/-- Rational subtraction, executable spelling. -/
def qsub (a b : ℚ) : ℚ := mkRat (a.num * b.den - b.num * a.den) (a.den * b.den)

/-- Rational multiplication, executable spelling. -/
def qmul (a b : ℚ) : ℚ := mkRat (a.num * b.num) (a.den * b.den)

/-- Division of a rational by a natural number, executable spelling. -/
def qdivNat (a : ℚ) (n : ℕ) : ℚ := mkRat a.num (a.den * n)

/-- Sum of a list of rationals, executable spelling. -/
def qsum (l : List ℚ) : ℚ := l.foldr qadd 0

theorem qadd_eq (a b : ℚ) : qadd a b = a + b := by
  have ha : ((a.den : ℚ)) ≠ 0 := by exact_mod_cast a.den_nz
  have hb : ((b.den : ℚ)) ≠ 0 := by exact_mod_cast b.den_nz
  conv_rhs => rw [← Rat.num_div_den a, ← Rat.num_div_den b]
  unfold qadd
  rw [Rat.mkRat_eq_div, div_add_div _ _ ha hb]
  push_cast
  ring_nf

theorem qsub_eq (a b : ℚ) : qsub a b = a - b := by
  have ha : ((a.den : ℚ)) ≠ 0 := by exact_mod_cast a.den_nz
  have hb : ((b.den : ℚ)) ≠ 0 := by exact_mod_cast b.den_nz
  conv_rhs => rw [← Rat.num_div_den a, ← Rat.num_div_den b]
  unfold qsub
  rw [Rat.mkRat_eq_div, div_sub_div _ _ ha hb]
  push_cast
  ring_nf

theorem qmul_eq (a b : ℚ) : qmul a b = a * b := by
  conv_rhs => rw [← Rat.num_div_den a, ← Rat.num_div_den b]
  unfold qmul
  rw [Rat.mkRat_eq_div, div_mul_div_comm]
  push_cast
  ring_nf

theorem qdivNat_eq (a : ℚ) (n : ℕ) : qdivNat a n = a / n := by
  conv_rhs => rw [← Rat.num_div_den a]
  unfold qdivNat
  rw [Rat.mkRat_eq_div, div_div]
  push_cast
  ring_nf

theorem qsum_eq (l : List ℚ) : qsum l = l.sum := by
  induction l with
  | nil => rfl
  | cons a l ih => simp [qsum, List.foldr, qadd_eq] at *; simp [ih]

/-- The arithmetic mean `Series.mean()`: sum divided by length. -/
def qmean (l : List ℚ) : ℚ := qdivNat (qsum l) l.length

theorem qmean_eq (l : List ℚ) : qmean l = l.sum / l.length := by
  rw [qmean, qdivNat_eq, qsum_eq]

/-- Python `float(s)` on decimal literals: optional surrounding whitespace,
optional sign, digits with an optional fractional part and an optional
decimal exponent.  (`inf`/`nan`/underscore/hex forms are rejected; none of
them occur in the repository's data paths exercised by the claims.)  Returns
`none` exactly where `float(...)` raises `ValueError`. -/
def pyFloatL (s : List Char) : Option ℚ :=
  let cs := trimL s
  let (neg, cs) :=
    match cs with
    | '-' :: r => (true, r)
    | '+' :: r => (false, r)
    | r => (false, r)
  let ip := cs.takeWhile Char.isDigit
  let cs1 := cs.dropWhile Char.isDigit
  let (hasDot, fp, cs2) :=
    match cs1 with
    | '.' :: r => (true, r.takeWhile Char.isDigit, r.dropWhile Char.isDigit)
    | r => (false, ([] : List Char), r)
  let (expOk, expVal) :=
    match cs2 with
    | [] => (true, (0 : ℤ))
    | 'e' :: r => expPart r
    | 'E' :: r => expPart r
    | _ => (false, 0)
  if (ip ≠ [] ∨ (hasDot ∧ fp ≠ [])) ∧ expOk then
    let base : ℚ := qadd (digitsVal ip : ℚ) (qdivNat (digitsVal fp : ℚ) (10 ^ fp.length))
    let mag : ℚ :=
      if 0 ≤ expVal then qmul base ((10 ^ expVal.toNat : ℕ) : ℚ)
      else qdivNat base (10 ^ (-expVal).toNat)
    some (if neg then -mag else mag)
  else none
where
  /-- Exponent part after `e`/`E`: optional sign then at least one digit. -/
  expPart (r : List Char) : Bool × ℤ :=
    let (eneg, r) :=
      match r with
      | '-' :: r => (true, r)
      | '+' :: r => (false, r)
      | r => (false, r)
    let ds := r.takeWhile Char.isDigit
    if ds ≠ [] ∧ r.dropWhile Char.isDigit = [] then
      (true, if eneg then -(digitsVal ds : ℤ) else (digitsVal ds : ℤ))
    else (false, 0)

/-! ## A small regular-expression model

`pandas.Series.str.contains(pat)` interprets `pat` as a regular expression
(`regex=True` is the default) and tests `re.search`.  The patterns reachable
in this repository are alternations of literal branches, possibly with
grouping parentheses around literal text (`'RPG|Role-playing'`, `';|,'`, and
arbitrary genre tokens fed back as patterns in Q5).  `compileRe` covers
exactly that fragment: it splits the pattern on `'|'`, rejects any branch
containing a quantifier/class/anchor metacharacter or unbalanced parentheses
(where Python's semantics would leave the fragment), and erases grouping
parentheses, which are transparent for matching purposes.  `none` therefore
means "outside the modelled fragment", which for the patterns proved about
below coincides with `re.error`. -/

/-- Regex metacharacters outside the modelled literal/group/alternation
fragment. -/
def reMeta : List Char := ['.', '^', '$', '*', '+', '?', '[', ']', '\\']

/-- Parenthesis balance check (depth never negative, ends at zero). -/
def parenOk : List Char → ℕ → Bool
  | [], d => d == 0
  | c :: r, d =>
    if c == '(' then parenOk r (d + 1)
    else if c == ')' then d != 0 && parenOk r (d - 1)
    else parenOk r d

/-- Compile one alternation branch to the literal char sequence it matches:
reject unsupported metacharacters and unbalanced parentheses, erase grouping
parentheses. -/
def branchLit (b : List Char) : Option (List Char) :=
  if b.any (fun c => reMeta.contains c) then none
  else if parenOk b 0 then some (b.filter (fun c => !(c == '(') && !(c == ')')))
  else none

/-- Compile a pattern of the literal/group/alternation fragment to the list
of literal branches it matches. -/
def compileRe (p : List Char) : Option (List (List Char)) :=
  (splitDelims ['|'] p).mapM branchLit

/-- `re.search` for a compiled pattern: some branch occurs as a contiguous
substring. -/
def reSearch (branches : List (List Char)) (s : List Char) : Bool :=
  branches.any (fun lit => decide (lit <:+: s))

/-- Case-insensitive `Series.str.contains(pat, case=False)` on one cell,
for patterns in the modelled fragment; `Except.error` where Python's `re`
raises (or the pattern leaves the modelled fragment). -/
def pyContainsCI (pat s : List Char) : Except String Bool :=
  match compileRe pat with
  | some bs => .ok (reSearch (bs.map lowerL) (lowerL s))
  | none => .error "re.error"

/-! ## The Canonical Table (spec §3) -/

/-- One row of the Canonical Table produced by the Normalizer, with the typed
fields used by the five queries.  `release_date` is a `yyyymmdd` integer
(chronological order = numeric order), `none` when the raw date did not
parse; `metacritic_score` is `none` when absent (never defaulted). -/
structure GameRec where
  name : String
  release_date : Option ℤ
  metacritic_score : Option ℚ
  price : ℚ
  genres : String
  publishers : String
  developers : String
  windows : Bool
  mac : Bool
  linux : Bool
  dlc_count : ℤ
  positive_reviews : ℤ
  negative_reviews : ℤ
  screenshots : ℤ
  movies : ℤ
deriving DecidableEq, Repr

/-- The year of a `yyyymmdd`-encoded date (`Series.dt.year`). -/
def yearOf (d : ℤ) : ℤ := d / 10000

/-! ## Q4 — `check_linux_support_growth` (analysis_functions.py:129-171) -/

/-- Lines 152-156: records with `linux == True` and `release_year` in
[2018, 2022].  A missing release date gives a NaN year, and NaN comparisons
are `False`, so such records are filtered out. -/
def q4filtered (df : List GameRec) : List GameRec :=
  df.filter (fun r =>
    r.linux &&
      match r.release_date with
      | some d => decide (2018 ≤ yearOf d) && decide (yearOf d ≤ 2022)
      | none => false)

/-- The `release_year` column of the filtered records (all dates present). -/
def q4years (df : List GameRec) : List ℤ :=
  (q4filtered df).map (fun r => yearOf (r.release_date.getD 0))

/-- Line 162: `value_counts().sort_index()` — distinct years in ascending
order, each with its number of occurrences. -/
def valueCountsSorted (l : List ℤ) : List (ℤ × ℕ) :=
  (List.insertionSort (· ≤ ·) l.dedup).map (fun y => (y, l.count y))

/-- Lines 141-171.  Empty filtered set → empty frame with the two column
labels and no rows (line 158-159).  Otherwise the per-year counts are
left-merged onto the full range 2018..2022, missing counts filled with 0
(lines 166-168). -/
def check_linux_support_growth (df : List GameRec) : List (ℤ × ℤ) :=
  if q4filtered df = [] then []
  else
    let vc := valueCountsSorted (q4years df)
    [2018, 2019, 2020, 2021, 2022].map
      (fun y => (y, ((vc.lookup y).map (fun n => (n : ℤ))).getD 0))

/-! ## Q1 — `get_top_10_metacritic_games` (analysis_functions.py:4-33) -/

/-- Lines 17-24: keep the records with both a metacritic score and a release
date (the `to_numeric`/`to_datetime` coercions are identities on the typed
Canonical Table, and the two `dropna` passes amount to this one filter). -/
def q1filtered (df : List GameRec) : List GameRec :=
  df.filter (fun r => r.metacritic_score.isSome && r.release_date.isSome)

/-- Score of a filtered record (`getD` is only applied where `isSome`). -/
def q1Score (r : GameRec) : ℚ := r.metacritic_score.getD 0

/-- Date of a filtered record. -/
def q1Date (r : GameRec) : ℤ := r.release_date.getD 0

/-- The sort key order of lines 27-30: `metacritic_score` descending, then
`release_date` ascending.  `a ≼ b` means `a` may appear no later than `b`. -/
def q1Rel (a b : GameRec) : Prop :=
  q1Score b < q1Score a ∨ (q1Score a = q1Score b ∧ q1Date a ≤ q1Date b)

instance : DecidableRel q1Rel := fun _ _ => inferInstanceAs (Decidable (_ ∨ _))

instance : IsTotal GameRec q1Rel where
  total a b := by
    rcases lt_trichotomy (q1Score a) (q1Score b) with h | h | h
    · exact .inr (.inl h)
    · rcases le_total (q1Date a) (q1Date b) with h' | h'
      · exact .inl (.inr ⟨h, h'⟩)
      · exact .inr (.inr ⟨h.symm, h'⟩)
    · exact .inl (.inl h)

instance : IsTrans GameRec q1Rel where
  trans a b c hab hbc := by
    rcases hab with h | ⟨h, hd⟩ <;> rcases hbc with h' | ⟨h', hd'⟩
    · exact .inl (h'.trans h)
    · exact .inl (h' ▸ h)
    · exact .inl (h ▸ h')
    · exact .inr ⟨h.trans h', hd.trans hd'⟩

/-- Lines 27-30: the multi-key `sort_values` (`np.lexsort`, a stable sort;
stable sorting by a total preorder is extensionally unique, so the
structural `insertionSort` is the same function). -/
def q1sorted (df : List GameRec) : List GameRec :=
  List.insertionSort q1Rel (q1filtered df)

/-- The projection of line 33. -/
structure Q1Row where
  name : String
  metacritic_score : ℚ
  release_date : ℤ
  publishers : String
  developers : String
deriving DecidableEq, Repr

/-- Lines 17-33: sort the qualifying records, take the first 10, project. -/
def get_top_10_metacritic_games (df : List GameRec) : List Q1Row :=
  ((q1sorted df).take 10).map
    (fun r => ⟨r.name, q1Score r, q1Date r, r.publishers, r.developers⟩)

/-! ## Q2 — `analyze_role_playing_games_metrics` (analysis_functions.py:35-87) -/

/-- The pattern of line 53. -/
def rpgPattern : List Char := "RPG|Role-playing".toList

/-- Line 53: `str.contains('RPG|Role-playing', case=False, na=False)` on one
genres cell.  `compileRe` succeeds on this fixed pattern (see
`compileRe_rpgPattern`), so the `none` fallback is unreachable; `na=False`
is moot because canonical `genres` is always a string. -/
def rpgMatch (g : String) : Bool :=
  ((compileRe rpgPattern).map
    (fun bs => reSearch (bs.map lowerL) (lowerL g.toList))).getD false

/-- Lines 52-54: the role-playing selection. -/
def rpg_games (df : List GameRec) : List GameRec :=
  df.filter (fun r => rpgMatch r.genres)

/-- `Series.max()` of a non-empty integer column. -/
def intMax : List ℤ → ℤ
  | [] => 0
  | a :: r => r.foldl max a

/-- The result of Q2: either the explicit "no role-playing games" message
object of lines 57-59, or the `{media, maximo}` pairs of lines 69-86 for
`dlc_count`, `positive_reviews`, `negative_reviews`,
`total_demo_materials`. -/
inductive Q2Result where
  | noMatch : Q2Result
  | metrics : (ℚ × ℤ) → (ℚ × ℤ) → (ℚ × ℤ) → (ℚ × ℤ) → Q2Result
deriving DecidableEq, Repr

/-- Lines 48-87.  `total_demo_materials = screenshots + movies` (line 62);
the `fillna`/`to_numeric` steps are identities on the typed table. -/
def analyze_role_playing_games_metrics (df : List GameRec) : Q2Result :=
  let sel := rpg_games df
  if sel = [] then .noMatch
  else
    let demo : List ℤ := sel.map (fun r => r.screenshots + r.movies)
    .metrics
      (qmean (sel.map (fun r => (r.dlc_count : ℚ))), intMax (sel.map (fun r => r.dlc_count)))
      (qmean (sel.map (fun r => (r.positive_reviews : ℚ))), intMax (sel.map (fun r => r.positive_reviews)))
      (qmean (sel.map (fun r => (r.negative_reviews : ℚ))), intMax (sel.map (fun r => r.negative_reviews)))
      (qmean (demo.map (fun z => (z : ℚ))), intMax demo)

/-! ## Q3 — `analyze_top_paid_game_publishers` (analysis_functions.py:89-127) -/

/-- Line 107: records with `price > 0` (`price` is never NaN on the
Canonical Table, so the `notna` conjunct is vacuous). -/
def paid_games (df : List GameRec) : List GameRec :=
  df.filter (fun r => decide (0 < r.price))

/-- `Series.value_counts()`: distinct values with multiplicities (keyed in
first-occurrence order; only lookup and top-5 selection are performed on
it, see `top5ByCount`). -/
def strValueCounts (l : List String) : List (String × ℕ) :=
  l.dedup.map (fun s => (s, l.count s))

/-- `nlargest(5)` with the default `keep='first'`: stable sort by count
descending, take 5. -/
def top5ByCount {α : Type} (l : List (α × ℕ)) : List α :=
  ((List.insertionSort (fun a b : α × ℕ => b.2 ≤ a.2) l).take 5).map (fun p => p.1)

/-- `Series.median()` of a column (mean of the two middle elements for even
length; only applied to non-empty groups). -/
def qmedian (l : List ℚ) : ℚ :=
  let s := List.insertionSort (· ≤ ·) l
  if s.length % 2 = 1 then s.getD (s.length / 2) 0
  else qdivNat (qadd (s.getD (s.length / 2 - 1) 0) (s.getD (s.length / 2) 0)) 2

/-- One output row of Q3 (lines 120-125). -/
structure Q3Row where
  publishers : String
  num_paid_games : ℕ
  avg_positive_reviews : ℚ
  median_positive_reviews : ℚ
deriving DecidableEq, Repr

/-- Lines 102-127.  Empty paid set → empty frame with the column shape
(line 110).  Otherwise: top-5 publisher strings by paid-game count
(line 112), one row per publisher with count / mean / median of
`positive_reviews` (lines 114-125), sorted by count descending
(line 127). -/
def analyze_top_paid_game_publishers (df : List GameRec) : List Q3Row :=
  let paid := paid_games df
  if paid = [] then []
  else
    let tops := top5ByCount (strValueCounts (paid.map (fun r => r.publishers)))
    let rows := tops.map (fun p =>
      let pg := paid.filter (fun r => r.publishers == p)
      let pos := pg.map (fun r => (r.positive_reviews : ℚ))
      Q3Row.mk p pg.length (qmean pos) (qmedian pos))
    List.insertionSort (fun a b : Q3Row => b.num_paid_games ≤ a.num_paid_games) rows

/-! ## Q5 — `analyze_price_vs_recommendations_by_genre`
(analysis_functions.py:173-240) -/

/-- Lines 198-203: records released after 2019 (NaN years compare `False`);
the `notna` conjuncts on `price`/`positive_reviews`/`negative_reviews` are
vacuous on the typed Canonical Table. -/
def recentGames (df : List GameRec) : List GameRec :=
  df.filter (fun r =>
    match r.release_date with
    | some d => decide (2019 < yearOf d)
    | none => false)

/-- Line 208: `total_recommendations = positive_reviews +
negative_reviews`. -/
def totalRecs (r : GameRec) : ℤ := r.positive_reviews + r.negative_reviews

/-- Lines 212-213 applied to one cell: split the raw genres string on the
regex `';|,'` and strip each token. -/
def genreTokens (g : String) : List (List Char) :=
  (splitDelims [';', ','] g.toList).map trimL

/-- Lines 212-213: `str.split(';|,', expand=True).stack()` followed by
`str.strip()` — all tokens of all filtered records in row-major order. -/
def explodedTokens (df : List GameRec) : List (List Char) :=
  (recentGames df).flatMap (fun r => genreTokens r.genres)

/-- Line 214: `value_counts()` of the exploded tokens. -/
def tokenCounts (df : List GameRec) : List (List Char × ℕ) :=
  let ts := explodedTokens df
  ts.dedup.map (fun t => (t, ts.count t))

/-- Line 216: drop the empty token, `nlargest(5)`. -/
def popularGenres (df : List GameRec) : List (List Char) :=
  top5ByCount ((tokenCounts df).filter (fun p => !p.1.isEmpty))

/-- Line 221: `genres.str.contains(genre, case=False, na=False)` — the
genre token is interpreted as a regular expression; a pattern outside the
modelled fragment (where Python's `re` raises `re.error`, e.g. `'C++'`)
propagates as an error. -/
def genreSubset (df : List GameRec) (tok : List Char) :
    Except String (List GameRec) :=
  match compileRe tok with
  | none => .error "re.error"
  | some bs =>
    .ok ((recentGames df).filter
      (fun r => reSearch (bs.map lowerL) (lowerL r.genres.toList)))

/-- Number of distinct values, `Series.nunique()`. -/
def nuniqueQ (l : List ℚ) : ℕ := l.dedup.length

/-- The sums defining the Pearson correlation coefficient of line 231:
`(Σ dx·dy, Σ dx², Σ dy²)` where `dx`, `dy` are deviations from the means.
The numeric coefficient is `Σ dx·dy / √(Σ dx² · Σ dy²)`, recovered from
this triple by `corrReal`; the triple representation keeps the embedding
inside exact arithmetic. -/
def devSums (xs ys : List ℚ) : ℚ × ℚ × ℚ :=
  let mx := qmean xs
  let my := qmean ys
  let ds := (xs.zip ys).map (fun p => (qsub p.1 mx, qsub p.2 my))
  (qsum (ds.map (fun p => qmul p.1 p.2)),
   qsum (ds.map (fun p => qmul p.1 p.1)),
   qsum (ds.map (fun p => qmul p.2 p.2)))

/-- One output row of Q5 (lines 233-238); `correlation = none` models the
`np.nan` of line 229 (absent, reported when either variable has at most
one distinct value). -/
structure Q5Row where
  genre : List Char
  avg_price : ℚ
  avg_total_recommendations : ℚ
  correlation : Option (ℚ × ℚ × ℚ)
deriving DecidableEq, Repr

/-- Loop body, lines 226-238, for one genre's subset. -/
def q5row (tok : List Char) (gg : List GameRec) : Q5Row :=
  let prices := gg.map (fun r => r.price)
  let recs := gg.map (fun r => ((totalRecs r : ℤ) : ℚ))
  { genre := tok
    avg_price := qmean prices
    avg_total_recommendations := qmean recs
    correlation :=
      if 1 < nuniqueQ prices ∧ 1 < nuniqueQ recs then some (devSums prices recs)
      else none }

/-- Lines 218-238: the `results` list — one row per popular genre whose
subset is non-empty (`continue` on line 224 skips empty subsets). -/
def q5rows (df : List GameRec) : Except String (List Q5Row) :=
  (popularGenres df).foldlM
    (fun acc tok =>
      match genreSubset df tok with
      | .error e => .error e
      | .ok gg => if gg = [] then .ok acc else .ok (acc ++ [q5row tok gg]))
    []

/-- Lines 185-240.  Empty filtered set → empty frame with the column shape
(lines 205-206).  Otherwise build the per-genre rows and sort them by
`avg_total_recommendations` descending (line 240) — but
`pd.DataFrame(results)` of an empty `results` list has no columns at all,
so `sort_values(by='avg_total_recommendations')` raises a `KeyError`
there. -/
def analyze_price_vs_recommendations_by_genre (df : List GameRec) :
    Except String (List Q5Row) :=
  if recentGames df = [] then .ok []
  else
    match q5rows df with
    | .error e => .error e
    | .ok rows =>
      if rows = [] then .error "KeyError: avg_total_recommendations"
      else .ok (List.insertionSort
          (fun a b : Q5Row => b.avg_total_recommendations ≤ a.avg_total_recommendations) rows)

/-! ## The Normalizer — `data_processor.py: load_and_preprocess_data`

The raw frame delivered by `pd.read_csv` is modelled column-oriented: an
association list from column name to cell list.  A cell is a `PyVal`:
`pd.read_csv` produces strings, numbers, booleans and NaN (missing cells);
`pd.to_datetime` produces datetimes.  `normalize` models lines 27-99 of
`data_processor.py` (everything after the file read): `df[c]` on a missing
column raises `KeyError` (an `Except.error` here, re-raised by the
`except` block of lines 104-106), all other steps are guarded by
`if col in df.columns`. -/

/-- A pandas cell value. -/
inductive PyVal where
  | pnan : PyVal
  | pstr : String → PyVal
  | pbool : Bool → PyVal
  | pint : ℤ → PyVal
  | pfloat : ℚ → PyVal
  | pdate : ℤ → PyVal
deriving DecidableEq, Repr

/-- Python truthiness, as applied elementwise by `astype(bool)` on an
object column: `bool("")` is `False`, every other string — including
`"False"` — is `True`; `bool(float('nan'))` is `True`; numeric zero and
`False` itself are `False`. -/
def pyTruthy : PyVal → Bool
  | .pnan => true
  | .pstr s => !s.isEmpty
  | .pbool b => b
  | .pint n => n != 0
  | .pfloat q => q != 0
  | .pdate _ => true

/-- Python `str(x)`, as applied elementwise by `astype(str)`:
`str(float('nan'))` is `"nan"`.  The float/date cases are best-effort
renderings; no claim evaluates them on a concrete input. -/
def pyStr : PyVal → String
  | .pstr s => s
  | .pnan => "nan"
  | .pbool b => if b then "True" else "False"
  | .pint n => toString n
  | .pfloat q => toString q.num
  | .pdate d => toString d

/-- `pd.to_numeric(·, errors='coerce')` on one cell: `none` is NaN. -/
def toNum : PyVal → Option ℚ
  | .pint n => some (n : ℚ)
  | .pfloat q => some q
  | .pbool b => some (if b then 1 else 0)
  | .pstr s => pyFloatL s.toList
  | .pnan => none
  | .pdate _ => none

/-- Month abbreviations of the `%b` directive. -/
def monthTable : List (List Char × ℤ) :=
  [("Jan".toList, 1), ("Feb".toList, 2), ("Mar".toList, 3), ("Apr".toList, 4),
   ("May".toList, 5), ("Jun".toList, 6), ("Jul".toList, 7), ("Aug".toList, 8),
   ("Sep".toList, 9), ("Oct".toList, 10), ("Nov".toList, 11), ("Dec".toList, 12)]

/-- A non-empty all-digit string. -/
def parseDigits (l : List Char) : Option ℕ :=
  if l ≠ [] ∧ l.all Char.isDigit then some (digitsVal l) else none

/-- `pd.to_datetime(·, format='%b %d, %Y', errors='coerce')` on one string:
abbreviated month, day, comma, 4-digit year (e.g. `"Jan 2, 2015"`), to the
`yyyymmdd` encoding; any deviation → `none` (NaT). -/
def parseDateL (s : String) : Option ℤ :=
  match splitDelims [' '] s.toList with
  | [mon, dayc, yr] => do
    let m ← monthTable.lookup mon
    let day ←
      match dayc.reverse with
      | ',' :: rest => parseDigits rest.reverse
      | _ => none
    let y ← parseDigits yr
    if 1 ≤ day ∧ day ≤ 31 ∧ yr.length = 4 then
      some ((y : ℤ) * 10000 + m * 100 + (day : ℤ))
    else none
  | _ => none

/-- A raw or preprocessed DataFrame, column-oriented. -/
abbrev Frame := List (String × List PyVal)

/-- The column labels, in order. -/
def colNames (f : Frame) : List String := f.map (fun p => p.1)

/-- `df[c]`, as an `Option` (a `KeyError` at the call sites). -/
def getCol (f : Frame) (c : String) : Option (List PyVal) := f.lookup c

/-- `df[c] = v`: replace the column if the label exists, else append it. -/
def setCol (f : Frame) (c : String) (v : List PyVal) : Frame :=
  if (colNames f).contains c then
    f.map (fun p => if p.1 = c then (c, v) else p)
  else f ++ [(c, v)]

/-- An `if col in df.columns:`-guarded elementwise column transform. -/
def stepCol (f : Frame) (c : String) (g : PyVal → PyVal) : Frame :=
  match getCol f c with
  | none => f
  | some col => setCol f c (col.map g)

/-- Line 27: lowercase, strip, replace spaces with underscores. -/
def cleanName (s : String) : String :=
  String.mk ((trimL (s.toList.map Char.toLower)).map
    (fun c => if c == ' ' then '_' else c))

/-- Lines 30-39: the synonym table. -/
def renameMap : List (String × String) :=
  [("positive", "positive_reviews"), ("negative", "negative_reviews"),
   ("publisher_name", "publisher"), ("game_publisher", "publisher"),
   ("developer_name", "developer"), ("game_developer", "developer")]

/-- Line 41: rename a label if it is a key of the synonym table. -/
def renameFix (s : String) : String := (renameMap.lookup s).getD s

/-- Line 47 applied to one cell. -/
def dateStep : PyVal → PyVal
  | .pstr s =>
    match parseDateL s with
    | some d => .pdate d
    | none => .pnan
  | .pdate d => .pdate d
  | _ => .pnan

/-- Line 48 applied to one cell (`Series.dt.year`; NaT → NaN). -/
def yearStep : PyVal → PyVal
  | .pdate d => .pint (yearOf d)
  | _ => .pnan

/-- Line 51 applied to one cell: `to_numeric(errors='coerce').fillna(0.0)`. -/
def priceStep (v : PyVal) : PyVal := .pfloat ((toNum v).getD 0)

/-- Lines 54-56 applied to one cell: `astype(bool)`. -/
def boolStep (v : PyVal) : PyVal := .pbool (pyTruthy v)

/-- Lines 68-69 applied to one cell: `astype(str)`, strip every non-digit
character, `to_numeric(errors='coerce').fillna(0).astype(int)`. -/
def intStep (v : PyVal) : PyVal :=
  match (pyStr v).toList.filter Char.isDigit with
  | [] => .pint 0
  | ds => .pint (digitsVal ds : ℤ)

/-- Lines 73-82, `clean_estimated_owners`: non-strings → NaN; otherwise
remove commas, split on `" - "`, parse the first segment as a float,
`ValueError` → NaN. -/
def clean_estimated_owners (v : PyVal) : Option ℚ :=
  match v with
  | .pstr s =>
    pyFloatL (takeUntilSep " - ".toList (s.toList.filter (fun c => !(c == ','))))
  | _ => none

/-- Lines 84-85 applied to one cell: `apply(clean_estimated_owners)` then
`fillna(0)`. -/
def ownersStep (v : PyVal) : PyVal := .pfloat ((clean_estimated_owners v).getD 0)

/-- Line 90 applied to one cell: `to_numeric(errors='coerce')`, NaNs
kept. -/
def metacriticStep (v : PyVal) : PyVal :=
  match toNum v with
  | some q => .pfloat q
  | none => .pnan

/-- Line 96 applied to one cell: `astype(str).str.strip().fillna('')` —
note `astype(str)` renders a missing cell as the string `"nan"`, so no NaN
remains and the `fillna('')` is a no-op. -/
def strStep (v : PyVal) : PyVal := .pstr (String.mk (trimL (pyStr v).toList))

/-- The boolean platform columns of line 54. -/
def boolColsN : List String := ["windows", "mac", "linux"]

/-- The integer counter columns of lines 60-64. -/
def intColsN : List String :=
  ["dlc_count", "reviews", "positive_reviews", "negative_reviews",
   "achievements", "recommendations", "average_playtime_forever",
   "average_playtime_two_weeks", "median_playtime_forever",
   "median_playtime_two_weeks", "screenshots", "movies"]

/-- The delimiter-joined list columns of line 94. -/
def listColsN : List String := ["genres", "categories", "tags"]

/-- Lines 27-41: label cleaning followed by the synonym renaming. -/
def rnClean (raw : Frame) : Frame :=
  raw.map (fun p => (renameFix (cleanName p.1), p.2))

/-- Lines 47-48: coerce `release_date` to datetime and derive
`release_year` from it. -/
def afterDate (f1 : Frame) (rd : List PyVal) : Frame :=
  let rdates := rd.map dateStep
  setCol (setCol f1 "release_date" rdates) "release_year" (rdates.map yearStep)

/-- Lines 51-96: every coercion step after the two unguarded accesses —
price, the guarded platform booleans, integer counters,
`estimated_owners`, `metacritic_score`, and the delimiter-joined list
columns. -/
def normSteps (f3 : Frame) (pc : List PyVal) : Frame :=
  let f4 := setCol f3 "price" (pc.map priceStep)
  let f5 := boolColsN.foldl (fun acc c => stepCol acc c boolStep) f4
  let f6 := intColsN.foldl (fun acc c => stepCol acc c intStep) f5
  let f7 := stepCol f6 "estimated_owners" ownersStep
  let f8 := stepCol f7 "metacritic_score" metacriticStep
  listColsN.foldl (fun acc c => stepCol acc c strStep) f8

/-- Lines 27-99: the whole preprocessing pass over a loaded frame.
`df['release_date']` (line 47) and `df['price']` (line 51) are the only
unguarded column accesses; every other step checks
`if col in df.columns`. -/
def load_and_preprocess_data (raw : Frame) : Except String Frame :=
  let f1 : Frame := rnClean raw
  match getCol f1 "release_date" with
  | none => .error "KeyError: release_date"
  | some rd =>
    let f3 := afterDate f1 rd
    match getCol f3 "price" with
    | none => .error "KeyError: price"
    | some pc => .ok (normSteps f3 pc)

/-! ### Stability of the embedded stable sort

`np.lexsort` (the multi-key `sort_values`) is stable; the embedding uses
`List.insertionSort`, and these lemmas prove it stable in the filter
formulation: elements of one key class keep their original relative
order. -/

theorem filter_orderedInsert_pos {α : Type} (r : α → α → Prop) [DecidableRel r]
    (p : α → Bool) (a : α) (h : ∀ b, p b = true → r a b) (ha : p a = true) :
    ∀ l : List α, (l.orderedInsert r a).filter p = a :: l.filter p := by
  intro l
  induction l with
  | nil => simp [ha]
  | cons b l ih =>
    by_cases hr : r a b
    · simp [List.orderedInsert, hr, ha]
    · have hb : p b = false := by
        cases hpb : p b with
        | true => exact absurd (h b hpb) hr
        | false => rfl
      simp [List.orderedInsert, hr, hb, ih]

theorem filter_orderedInsert_neg {α : Type} (r : α → α → Prop) [DecidableRel r]
    (p : α → Bool) (a : α) (ha : p a = false) :
    ∀ l : List α, (l.orderedInsert r a).filter p = l.filter p := by
  intro l
  induction l with
  | nil => simp [ha]
  | cons b l ih =>
    by_cases hr : r a b
    · simp [List.orderedInsert, hr, ha]
    · simp only [List.orderedInsert, if_neg hr]
      cases hpb : p b with
      | true => simp [List.filter_cons, hpb, ih]
      | false => simp [List.filter_cons, hpb, ih]

/-- Stability: filtering a sorted list to a class of mutually `r`-related
elements recovers the original filtered sequence. -/
theorem filter_insertionSort {α : Type} (r : α → α → Prop) [DecidableRel r]
    (p : α → Bool) (hmut : ∀ a b, p a = true → p b = true → r a b) :
    ∀ l : List α, (List.insertionSort r l).filter p = l.filter p := by
  intro l
  induction l with
  | nil => rfl
  | cons a l ih =>
    show (List.orderedInsert r a (List.insertionSort r l)).filter p = _
    cases hpa : p a with
    | true =>
      rw [filter_orderedInsert_pos r p a (fun b hb => hmut a b hpa hb) hpa, ih]
      simp [hpa]
    | false =>
      rw [filter_orderedInsert_neg r p a hpa, ih]
      simp [hpa]

/-! ### Q4 lemmas -/

theorem lookup_map_self {α β : Type _} [DecidableEq α] (keys : List α) (f : α → β)
    (y : α) :
    (keys.map (fun x => (x, f x))).lookup y =
      if y ∈ keys then some (f y) else none := by
  induction keys with
  | nil => simp
  | cons k ks ih =>
    by_cases h : y = k
    · subst h; simp [List.lookup]
    · simp [List.lookup, beq_false_of_ne h, h, ih]

theorem valueCountsSorted_lookup (l : List ℤ) (y : ℤ) :
    (((valueCountsSorted l).lookup y).map (fun n => (n : ℤ))).getD 0 =
      ((l.count y : ℕ) : ℤ) := by
  unfold valueCountsSorted
  rw [lookup_map_self]
  by_cases h : y ∈ List.insertionSort (· ≤ ·) l.dedup
  · simp [h]
  · have hy : y ∉ l := fun hl => h (by
      have : y ∈ l.dedup := List.mem_dedup.mpr hl
      simpa [List.mem_insertionSort] using this)
    simp [h, List.count_eq_zero_of_not_mem hy]

/-! ### Regular-expression and tokenization lemmas -/

theorem isInfixOfCons {α : Type} {seg l : List α} {a : α} (h : seg <:+: l) :
    seg <:+: a :: l := by
  obtain ⟨s, t, hst⟩ := h
  exact ⟨a :: s, t,
    by rw [show (a :: s) ++ seg ++ t = a :: (s ++ seg ++ t) from rfl, hst]⟩

/-- The segments produced by `splitDelims` occur contiguously in the input
(and the first one is a prefix of it). -/
theorem splitDelims_spec (delims : List Char) :
    ∀ cs : List Char,
      splitDelims delims cs ≠ [] ∧
      (∀ seg ∈ splitDelims delims cs, seg <:+: cs) ∧
      (∀ s ss, splitDelims delims cs = s :: ss → s <+: cs) := by
  intro cs
  induction cs with
  | nil =>
    refine ⟨by simp [splitDelims], ?_, ?_⟩
    · intro seg hseg
      simp [splitDelims] at hseg
      simp [hseg]
    · intro s ss h
      simp [splitDelims] at h
      simp [h.1]
  | cons c rest ih =>
    have heq : splitDelims delims (c :: rest) =
        if delims.contains c then [] :: splitDelims delims rest
        else
          match splitDelims delims rest with
          | [] => [[c]]
          | seg :: segs => (c :: seg) :: segs := rfl
    by_cases hc : delims.contains c = true
    · rw [heq, if_pos hc]
      refine ⟨by simp, ?_, ?_⟩
      · intro seg hseg
        rcases List.mem_cons.mp hseg with rfl | hseg
        · exact List.nil_infix
        · exact isInfixOfCons (ih.2.1 seg hseg)
      · intro s ss h
        injection h with h1 h2
        rw [← h1]
        exact List.nil_prefix
    · rw [heq, if_neg hc]
      cases hsp : splitDelims delims rest with
      | nil => exact absurd hsp ih.1
      | cons s ss =>
        have hs : s <+: rest := ih.2.2 s ss hsp
        have hcons : (c :: s) <+: (c :: rest) := by
          obtain ⟨t, ht⟩ := hs
          exact ⟨t, by rw [show (c :: s) ++ t = c :: (s ++ t) from rfl, ht]⟩
        refine ⟨by simp, ?_, ?_⟩
        · intro seg hseg
          rcases List.mem_cons.mp hseg with rfl | hseg
          · exact hcons.isInfix
          · exact isInfixOfCons (ih.2.1 seg (hsp ▸ List.mem_cons_of_mem s hseg))
        · intro s' ss' h
          injection h with h1 h2
          rw [← h1]
          exact hcons

/-- `str.strip` only removes characters from the two ends. -/
theorem trimL_isSub (s : List Char) : trimL s <:+: s := by
  unfold trimL
  have h1 : (s.dropWhile isWs).reverse.dropWhile isWs <:+ (s.dropWhile isWs).reverse :=
    List.dropWhile_suffix isWs
  have h2 : ((s.dropWhile isWs).reverse.dropWhile isWs).reverse <+:
      (s.dropWhile isWs).reverse.reverse := List.reverse_prefix.mpr h1
  rw [List.reverse_reverse] at h2
  exact h2.isInfix.trans (List.dropWhile_suffix isWs).isInfix

/-- Lower-casing preserves substring containment. -/
theorem lowerL_isSub {a b : List Char} (h : a <:+: b) : lowerL a <:+: lowerL b := by
  obtain ⟨s, t, hst⟩ := h
  exact ⟨lowerL s, lowerL t, by rw [← hst]; simp [lowerL]⟩

/-- A token free of delimiter characters is not split. -/
theorem splitDelims_of_no_delim (delims cs : List Char)
    (h : ∀ c ∈ cs, delims.contains c = false) :
    splitDelims delims cs = [cs] := by
  induction cs with
  | nil => rfl
  | cons c rest ih =>
    have hc := h c (List.mem_cons_self c rest)
    have heq : splitDelims delims (c :: rest) =
        if delims.contains c then [] :: splitDelims delims rest
        else
          match splitDelims delims rest with
          | [] => [[c]]
          | seg :: segs => (c :: seg) :: segs := rfl
    rw [heq, if_neg (by rw [hc]; simp),
      ih (fun x hx => h x (List.mem_cons_of_mem c hx))]

theorem parenOk_no_paren (b : List Char) (h : ∀ c ∈ b, c ≠ '(' ∧ c ≠ ')') :
    ∀ d, parenOk b d = (d == 0) := by
  induction b with
  | nil => intro d; rfl
  | cons c rest ih =>
    intro d
    have hc := h c (List.mem_cons_self c rest)
    rw [parenOk, if_neg (by simp [hc.1]), if_neg (by simp [hc.2])]
    exact ih (fun x hx => h x (List.mem_cons_of_mem c hx)) d

/-- A token containing no regex metacharacter at all. -/
def cleanTok (tok : List Char) : Prop :=
  ∀ c ∈ tok, ¬ c ∈ reMeta ∧ c ≠ '(' ∧ c ≠ ')' ∧ c ≠ '|'

instance (tok : List Char) : Decidable (cleanTok tok) := by
  unfold cleanTok; infer_instance

theorem branchLit_clean (tok : List Char) (h : cleanTok tok) :
    branchLit tok = some tok := by
  have hany : tok.any (fun c => reMeta.contains c) = false := by
    rw [List.any_eq_false]
    intro c hc
    simpa using (h c hc).1
  have hpar : parenOk tok 0 = true := by
    rw [parenOk_no_paren tok (fun c hc => ⟨(h c hc).2.1, (h c hc).2.2.1⟩) 0]
    rfl
  have hfil : tok.filter (fun c => !(c == '(') && !(c == ')')) = tok := by
    rw [List.filter_eq_self]
    intro c hc
    simp [(h c hc).2.1, (h c hc).2.2.1]
  unfold branchLit
  rw [hany, if_neg (by simp), if_pos hpar, hfil]

theorem compileRe_clean (tok : List Char) (h : cleanTok tok) :
    compileRe tok = some [tok] := by
  unfold compileRe
  rw [splitDelims_of_no_delim ['|'] tok
    (fun c hc => by simpa using (h c hc).2.2.2),
    List.mapM_cons, branchLit_clean tok h]
  rfl

/-- On a metacharacter-free token, the code's regex containment test is
literal (case-insensitive) substring containment. -/
theorem genreSubset_clean (df : List GameRec) (tok : List Char)
    (h : cleanTok tok) :
    genreSubset df tok =
      .ok ((recentGames df).filter
        (fun r => decide (lowerL tok <:+: lowerL r.genres.toList))) := by
  unfold genreSubset
  rw [compileRe_clean tok h]
  simp [reSearch]

theorem top5ByCount_mem {α : Type} (l : List (α × ℕ)) (x : α)
    (hx : x ∈ top5ByCount l) : ∃ n, (x, n) ∈ l := by
  unfold top5ByCount at hx
  obtain ⟨p, hp, rfl⟩ := List.mem_map.mp hx
  exact ⟨p.2, (List.mem_insertionSort _).mp (List.mem_of_mem_take hp)⟩

/-- Every popular genre of Q5 is one of the exploded tokens. -/
theorem popularGenres_mem (df : List GameRec) (tok : List Char)
    (h : tok ∈ popularGenres df) : tok ∈ explodedTokens df := by
  obtain ⟨n, hn⟩ := top5ByCount_mem _ _ h
  have h1 := (List.mem_filter.mp hn).1
  obtain ⟨t, ht, he⟩ := List.mem_map.mp h1
  exact List.mem_dedup.mp ((Prod.mk.injEq _ _ _ _ ▸ he).1 ▸ ht)

/-- A token extracted from a record's genres string occurs in that string
as a contiguous substring. -/
theorem genreTokens_isSub (g : String) (tok : List Char)
    (h : tok ∈ genreTokens g) : tok <:+: g.toList := by
  obtain ⟨seg, hseg, rfl⟩ := List.mem_map.mp h
  exact (trimL_isSub seg).trans ((splitDelims_spec _ g.toList).2.1 seg hseg)

/-- The fixed pattern of Q2 compiles to the two literal branches, so the
case-insensitive regex containment test is the disjunction of two literal
substring tests. -/
theorem rpgMatch_eq (g : String) :
    rpgMatch g = (decide ("rpg".toList <:+: lowerL g.toList) ||
      decide ("role-playing".toList <:+: lowerL g.toList)) := by
  have h : compileRe rpgPattern = some ["RPG".toList, "Role-playing".toList] := by
    decide
  have h2 : ["RPG".toList, "Role-playing".toList].map lowerL =
      ["rpg".toList, "role-playing".toList] := by decide
  unfold rpgMatch
  rw [h]
  show reSearch (["RPG".toList, "Role-playing".toList].map lowerL)
    (lowerL g.toList) = _
  rw [h2]
  simp [reSearch]

/-! ### Frame lemmas for C10 -/

theorem lookup_isSome_iff {β : Type} (f : List (String × β)) (c : String) :
    (f.lookup c).isSome = true ↔ c ∈ f.map (fun p => p.1) := by
  induction f with
  | nil => simp
  | cons p rest ih =>
    obtain ⟨k, v⟩ := p
    by_cases h : c = k
    · simp [List.lookup, h]
    · simp [List.lookup, beq_false_of_ne h, h, ih]

theorem lookup_map_setEntry {c c' : String} (h : c ≠ c') (v : List PyVal) :
    ∀ f : Frame,
      (f.map (fun p => if p.1 = c' then (c', v) else p)).lookup c = f.lookup c := by
  intro f
  induction f with
  | nil => rfl
  | cons p rest ih =>
    obtain ⟨k, w⟩ := p
    by_cases hk : k = c'
    · have hck : c ≠ k := fun hc => h (hc.trans hk)
      show List.lookup c ((if k = c' then (c', v) else (k, w)) :: _) = _
      rw [if_pos hk, List.lookup, List.lookup, beq_false_of_ne h,
        beq_false_of_ne hck, ih]
    · show List.lookup c ((if k = c' then (c', v) else (k, w)) :: _) = _
      rw [if_neg hk]
      by_cases hck : c = k
      · subst hck
        rw [List.lookup, List.lookup, beq_self_eq_true]
      · rw [List.lookup, List.lookup, beq_false_of_ne hck, ih]

theorem lookup_append_single {c c' : String} (h : c ≠ c') (v : List PyVal) :
    ∀ f : Frame, (f ++ [(c', v)]).lookup c = f.lookup c := by
  intro f
  induction f with
  | nil => simp [List.lookup, beq_false_of_ne h]
  | cons p rest ih =>
    obtain ⟨k, w⟩ := p
    by_cases hk : c = k
    · simp [List.lookup, hk]
    · simp [List.lookup, beq_false_of_ne hk, ih]

theorem lookup_setCol_ne {c c' : String} (h : c ≠ c') (f : Frame)
    (v : List PyVal) : (setCol f c' v).lookup c = f.lookup c := by
  unfold setCol
  split
  · exact lookup_map_setEntry h v f
  · exact lookup_append_single h v f

theorem lookup_stepCol_ne {c c' : String} (h : c ≠ c') (f : Frame)
    (g : PyVal → PyVal) : (stepCol f c' g).lookup c = f.lookup c := by
  unfold stepCol
  cases hg : getCol f c' with
  | none => rfl
  | some col => exact lookup_setCol_ne h f _

theorem lookup_foldl_stepCol_ne (cols : List String) (g : PyVal → PyVal)
    (c : String) (h : c ∉ cols) :
    ∀ f : Frame,
      ((cols.foldl (fun acc c' => stepCol acc c' g) f).lookup c) = f.lookup c := by
  induction cols with
  | nil => intro f; rfl
  | cons c' cols ih =>
    intro f
    have h1 : c ≠ c' := fun he => h (he ▸ List.mem_cons_self c' cols)
    rw [List.foldl_cons, ih (fun hm => h (List.mem_cons_of_mem c' hm)),
      lookup_stepCol_ne h1]

theorem colNames_setCol (f : Frame) (c : String) (v : List PyVal) :
    colNames (setCol f c v) =
      if c ∈ colNames f then colNames f else colNames f ++ [c] := by
  unfold setCol
  by_cases h : c ∈ colNames f
  · rw [if_pos (by simpa using h), if_pos h]
    unfold colNames
    rw [List.map_map]
    refine List.map_congr_left fun p _ => ?_
    by_cases hp : p.1 = c
    · simp [hp]
    · simp [hp]
  · rw [if_neg (by simpa using h), if_neg h]
    simp [colNames]

theorem colNames_stepCol (f : Frame) (c : String) (g : PyVal → PyVal) :
    colNames (stepCol f c g) = colNames f := by
  unfold stepCol
  cases hg : getCol f c with
  | none => rfl
  | some col =>
    have hm : c ∈ colNames f :=
      (lookup_isSome_iff f c).mp (by rw [show f.lookup c = some col from hg]; rfl)
    rw [colNames_setCol, if_pos hm]

theorem colNames_foldl_stepCol (cols : List String) (g : PyVal → PyVal) :
    ∀ f : Frame,
      colNames (cols.foldl (fun acc c' => stepCol acc c' g) f) = colNames f := by
  induction cols with
  | nil => intro f; rfl
  | cons c' cols ih =>
    intro f
    rw [List.foldl_cons, ih, colNames_stepCol]

theorem getCol_afterDate_price (f1 : Frame) (rd : List PyVal) :
    getCol (afterDate f1 rd) "price" = getCol f1 "price" := by
  unfold afterDate getCol
  rw [lookup_setCol_ne (by decide), lookup_setCol_ne (by decide)]

theorem colNames_normSteps (f3 : Frame) (pc : List PyVal)
    (h : "price" ∈ colNames f3) :
    colNames (normSteps f3 pc) = colNames f3 := by
  unfold normSteps
  rw [colNames_foldl_stepCol, colNames_stepCol, colNames_stepCol,
    colNames_foldl_stepCol, colNames_foldl_stepCol, colNames_setCol, if_pos h]

theorem colNames_afterDate (f1 : Frame) (rd : List PyVal)
    (h : "release_date" ∈ colNames f1) :
    colNames (afterDate f1 rd) =
      if "release_year" ∈ colNames f1 then colNames f1
      else colNames f1 ++ ["release_year"] := by
  unfold afterDate
  simp only [colNames_setCol, if_pos h]

/-! ### Pearson correlation bounds for C8 -/

/-- The numeric Pearson coefficient recovered from the deviation-sum
triple: `Σ dx·dy / √(Σ dx² · Σ dy²)` (line 231's `Series.corr`). -/
noncomputable def corrReal (t : ℚ × ℚ × ℚ) : ℝ :=
  (t.1 : ℝ) / Real.sqrt ((t.2.1 : ℝ) * (t.2.2 : ℝ))

/-- The list of (price, recommendation) deviations from the means, in
standard field operations. -/
def devList (xs ys : List ℚ) : List (ℚ × ℚ) :=
  (xs.zip ys).map (fun p => (p.1 - xs.sum / xs.length, p.2 - ys.sum / ys.length))

theorem devSums_eq (xs ys : List ℚ) :
    devSums xs ys =
      (((devList xs ys).map (fun p => p.1 * p.2)).sum,
       ((devList xs ys).map (fun p => p.1 * p.1)).sum,
       ((devList xs ys).map (fun p => p.2 * p.2)).sum) := by
  unfold devSums devList
  rw [qmean_eq, qmean_eq]
  simp [qsum_eq, qsub_eq, qmul_eq, List.map_map, Function.comp]

theorem list_sum_map_fin {α : Type} (l : List α) (f : α → ℚ) :
    (l.map f).sum = ∑ i : Fin l.length, f (l.get i) := by
  conv_lhs => rw [← List.ofFn_get l]
  rw [List.map_ofFn, List.sum_ofFn]
  rfl

/-- Cauchy–Schwarz for a list of pairs of rationals. -/
theorem list_cs (l : List (ℚ × ℚ)) :
    ((l.map (fun p => p.1 * p.2)).sum) ^ 2 ≤
      ((l.map (fun p => p.1 * p.1)).sum) * ((l.map (fun p => p.2 * p.2)).sum) := by
  rw [list_sum_map_fin, list_sum_map_fin, list_sum_map_fin]
  have h := Finset.sum_mul_sq_le_sq_mul_sq Finset.univ
    (fun i : Fin l.length => (l.get i).1) (fun i : Fin l.length => (l.get i).2)
  simpa [pow_two] using h

theorem list_sum_pos_of_mem (l : List ℚ) (h0 : ∀ z ∈ l, 0 ≤ z)
    (x : ℚ) (hx : x ∈ l) (hpos : 0 < x) : 0 < l.sum := by
  induction l with
  | nil => cases hx
  | cons a t ih =>
    rw [List.sum_cons]
    rcases List.mem_cons.mp hx with rfl | hx'
    · refine add_pos_of_pos_of_nonneg hpos ?_
      exact List.sum_nonneg (fun z hz => h0 z (List.mem_cons_of_mem _ hz))
    · refine add_pos_of_nonneg_of_pos (h0 _ (List.mem_cons_self _ t)) ?_
      exact ih (fun z hz => h0 z (List.mem_cons_of_mem _ hz)) hx'

theorem two_distinct_of_dedup (l : List ℚ) (h : 1 < l.dedup.length) :
    ∃ a ∈ l, ∃ b ∈ l, a ≠ b := by
  match hd : l.dedup with
  | [] => rw [hd] at h; simp at h
  | [a] => rw [hd] at h; simp at h
  | a :: b :: t =>
    have hnd := l.nodup_dedup
    rw [hd] at hnd
    have hab : a ≠ b := by
      intro hab
      exact (List.nodup_cons.mp hnd).1 (hab ▸ List.mem_cons_self b t)
    refine ⟨a, List.mem_dedup.mp (hd ▸ List.mem_cons_self a (b :: t)), b,
      List.mem_dedup.mp (hd ▸ List.mem_cons_of_mem a (List.mem_cons_self b t)),
      hab⟩

/-- A list with at least two distinct values has an element away from its
mean. -/
theorem dev_exists (xs : List ℚ) (h : 1 < xs.dedup.length) :
    ∃ x ∈ xs, x - xs.sum / xs.length ≠ 0 := by
  obtain ⟨a, ha, b, hb, hab⟩ := two_distinct_of_dedup xs h
  by_cases hax : a = xs.sum / xs.length
  · exact ⟨b, hb, fun hc => hab (hax.trans (sub_eq_zero.mp hc).symm)⟩
  · exact ⟨a, ha, sub_ne_zero_of_ne hax⟩

theorem devs_pos_left (xs ys : List ℚ) (hlen : ys.length = xs.length)
    (h : 1 < xs.dedup.length) :
    0 < ((devList xs ys).map (fun p => p.1 * p.1)).sum := by
  obtain ⟨x, hx, hdx⟩ := dev_exists xs h
  obtain ⟨i, hxi⟩ := List.mem_iff_get.mp hx
  have hi2 : (i : ℕ) < (xs.zip ys).length := by
    rw [List.length_zip, hlen, Nat.min_self]
    exact i.2
  have hiy : (i : ℕ) < ys.length := by rw [hlen]; exact i.2
  have hget : (xs.zip ys).get ⟨i, hi2⟩ = (x, ys.get ⟨i, hiy⟩) := by
    rw [List.get_eq_getElem, List.getElem_zip]
    rw [List.get_eq_getElem] at hxi
    rw [hxi]
    rfl
  have hm1 : (x, ys.get ⟨i, hiy⟩) ∈ xs.zip ys := hget ▸ List.get_mem _ _ _
  have hm2 : (x - xs.sum / xs.length) * (x - xs.sum / xs.length) ∈
      (devList xs ys).map (fun p => p.1 * p.1) := by
    refine List.mem_map.mpr
      ⟨(x - xs.sum / xs.length, ys.get ⟨i, hiy⟩ - ys.sum / ys.length), ?_, rfl⟩
    exact List.mem_map.mpr ⟨(x, ys.get ⟨i, hiy⟩), hm1, rfl⟩
  refine list_sum_pos_of_mem _ ?_ _ hm2 (mul_self_pos.mpr hdx)
  intro z hz
  obtain ⟨p, _, rfl⟩ := List.mem_map.mp hz
  exact mul_self_nonneg _

theorem devs_pos_right (xs ys : List ℚ) (hlen : ys.length = xs.length)
    (h : 1 < ys.dedup.length) :
    0 < ((devList xs ys).map (fun p => p.2 * p.2)).sum := by
  obtain ⟨y, hy, hdy⟩ := dev_exists ys h
  obtain ⟨i, hyi⟩ := List.mem_iff_get.mp hy
  have hi2 : (i : ℕ) < (xs.zip ys).length := by
    rw [List.length_zip]
    exact lt_min (hlen ▸ i.2) i.2
  have hix : (i : ℕ) < xs.length := hlen ▸ i.2
  have hget : (xs.zip ys).get ⟨i, hi2⟩ = (xs.get ⟨i, hix⟩, y) := by
    rw [List.get_eq_getElem, List.getElem_zip, ← hyi]
    rfl
  have hm1 : (xs.get ⟨i, hix⟩, y) ∈ xs.zip ys := hget ▸ List.get_mem _ _ _
  have hm2 : (y - ys.sum / ys.length) * (y - ys.sum / ys.length) ∈
      (devList xs ys).map (fun p => p.2 * p.2) := by
    refine List.mem_map.mpr
      ⟨(xs.get ⟨i, hix⟩ - xs.sum / xs.length, y - ys.sum / ys.length), ?_, rfl⟩
    exact List.mem_map.mpr ⟨(xs.get ⟨i, hix⟩, y), hm1, rfl⟩
  refine list_sum_pos_of_mem _ ?_ _ hm2 (mul_self_pos.mpr hdy)
  intro z hz
  obtain ⟨p, _, rfl⟩ := List.mem_map.mp hz
  exact mul_self_nonneg _

theorem corrReal_mem_Icc (t : ℚ × ℚ × ℚ)
    (hcs : (t.1 : ℝ) ^ 2 ≤ (t.2.1 : ℝ) * (t.2.2 : ℝ))
    (_hp : (0 : ℝ) < (t.2.1 : ℝ)) (_hq : (0 : ℝ) < (t.2.2 : ℝ)) :
    corrReal t ∈ Set.Icc (-1 : ℝ) 1 := by
  have habs : |(t.1 : ℝ)| ≤ Real.sqrt ((t.2.1 : ℝ) * (t.2.2 : ℝ)) := by
    rw [← Real.sqrt_sq_eq_abs]
    exact Real.sqrt_le_sqrt hcs
  have hdiv : |corrReal t| ≤ 1 := by
    rw [corrReal, abs_div, abs_of_nonneg (Real.sqrt_nonneg _)]
    exact div_le_one_of_le₀ habs (Real.sqrt_nonneg _)
  rw [Set.mem_Icc]
  exact abs_le.mp hdiv

/-! ## Concrete tables used by counterexamples and witnesses -/

/-- A Canonical-Table record with the fields relevant to the claims;
remaining fields are fixed defaults. -/
def sampleRec (nm : String) (d : Option ℤ) (sc : Option ℚ) (pr : ℚ)
    (gen : String) (lin : Bool) (pos neg : ℤ) : GameRec :=
  { name := nm, release_date := d, metacritic_score := sc, price := pr,
    genres := gen, publishers := "P", developers := "D", windows := true,
    mac := false, linux := lin, dlc_count := 0, positive_reviews := pos,
    negative_reviews := neg, screenshots := 0, movies := 0 }

/-- A table with one record that matches no query filter (not Linux, no
score). -/
def c1df : List GameRec := [sampleRec "g" (some 20200101) none 0 "" false 0 0]

/-- The A record of the spec's Q1 scenario: score 90, date 2020-01-01. -/
def c2A : GameRec := sampleRec "A" (some 20200101) (some 90) 0 "" false 0 0

/-- The B record of the spec's Q1 scenario: score 95, date 2019-01-01. -/
def c2B : GameRec := sampleRec "B" (some 20190101) (some 95) 0 "" false 0 0

/-- The C record of the spec's Q1 scenario: score 90, date 2018-01-01. -/
def c2C : GameRec := sampleRec "C" (some 20180101) (some 90) 0 "" false 0 0

/-! ## Claims -/

/-- C1, corrected.  For every Canonical Table: when at least one record
matches the Q4 filter (`linux` and year in [2018, 2022]), the result has
exactly one row per year of 2018..2022 in ascending order, the count of a
year being the number of matching records released that year (0 for years
with no match); but when no record at all matches, the result is the empty
frame (0 rows), not five zero rows. -/
theorem C1_amended : ∀ df : List GameRec,
    check_linux_support_growth df =
      if q4filtered df = [] then []
      else [2018, 2019, 2020, 2021, 2022].map
        (fun y => (y, ((q4years df).count y : ℤ))) := by
  intro df
  unfold check_linux_support_growth
  split
  · rfl
  · refine List.map_congr_left fun y _ => ?_
    rw [valueCountsSorted_lookup]

/-- C1, counterexample to the claim as stated: on a table whose only record
does not support Linux, the Q4 result has 0 rows, not 5. -/
theorem C1_counterexample : (check_linux_support_growth c1df).length ≠ 5 := by
  decide

/-- C2, corrected.  For every Canonical Table, Q1 sorts the records having
both score and date by score descending with ties broken by release date
ascending, stably (equal (score, date) classes keep their original relative
order), and returns the first 10 (all, if fewer qualify) projected onto the
five output fields.  On the spec's scenario A(90, 2020-01-01),
B(95, 2019-01-01), C(90, 2018-01-01) the resulting order is [B, C, A] —
date ascending places C's 2018 date before A's 2020 date — not the
[B, A, C] stated by the claim. -/
theorem C2_amended :
    (∀ df : List GameRec,
      (q1sorted df).Perm (q1filtered df) ∧
      (q1sorted df).Pairwise q1Rel ∧
      (∀ sc : ℚ, ∀ dt : ℤ,
        (q1sorted df).filter (fun r => decide (q1Score r = sc ∧ q1Date r = dt)) =
          (q1filtered df).filter (fun r => decide (q1Score r = sc ∧ q1Date r = dt))) ∧
      get_top_10_metacritic_games df =
        ((q1sorted df).take 10).map
          (fun r => ⟨r.name, q1Score r, q1Date r, r.publishers, r.developers⟩) ∧
      (get_top_10_metacritic_games df).length = min 10 (q1filtered df).length) ∧
    (get_top_10_metacritic_games [c2A, c2B, c2C]).map (fun r => r.name) =
      ["B", "C", "A"] := by
  refine ⟨fun df => ⟨List.perm_insertionSort q1Rel _,
    List.sorted_insertionSort q1Rel _, fun sc dt => ?_, rfl, ?_⟩, by decide⟩
  · refine filter_insertionSort q1Rel _ (fun a b ha hb => ?_) _
    have ha' := of_decide_eq_true ha
    have hb' := of_decide_eq_true hb
    exact .inr ⟨ha'.1.trans hb'.1.symm, (ha'.2.trans hb'.2.symm).le⟩
  · simp [get_top_10_metacritic_games, q1sorted, List.length_insertionSort]

/-- C2, counterexample to the claim as stated: the scenario table does not
produce the order [B, A, C]. -/
theorem C2_counterexample :
    ¬ ((get_top_10_metacritic_games [c2A, c2B, c2C]).map (fun r => r.name) =
      ["B", "A", "C"]) := by
  decide

/-- A post-2019 table whose only genre token, `A(B)`, contains regex
metacharacters. -/
def c4df : List GameRec :=
  [sampleRec "g" (some 20200101) none 1 "A(B)" false 1 0]

/-- A post-2019 table with the ordinary genre token `Action`. -/
def c4wdf : List GameRec :=
  [sampleRec "w" (some 20200101) none 1 "Action" false 1 0]

/-- C4, amended.  For every Canonical Table and every one of Q5's most
frequent genre tokens that is free of regex metacharacters, the per-genre
subset consists of exactly the filtered records whose raw, unsplit genres
string contains the token as a case-insensitive literal substring, and it
contains every record that contributed the token during exploded-token
counting.  (For tokens with regex metacharacters the code's `str.contains`
treats the token as a regular expression, and the subset can even miss all
contributing records — see the counterexample.) -/
theorem C4_amended : ∀ (df : List GameRec) (tok : List Char),
    tok ∈ popularGenres df → cleanTok tok →
    genreSubset df tok =
      .ok ((recentGames df).filter
        (fun r => decide (lowerL tok <:+: lowerL r.genres.toList))) ∧
    ∀ r ∈ recentGames df, tok ∈ genreTokens r.genres →
      r ∈ (recentGames df).filter
        (fun r => decide (lowerL tok <:+: lowerL r.genres.toList)) := by
  intro df tok _ hclean
  refine ⟨genreSubset_clean df tok hclean, fun r hr htok => ?_⟩
  exact List.mem_filter.mpr
    ⟨hr, decide_eq_true (lowerL_isSub (genreTokens_isSub _ _ htok))⟩

/-- C4, counterexample to the claim as stated: on `c4df` the token `A(B)`
is a most frequent genre token, yet the record that contributed it is not
in the selected subset (the regex `A(B)` matches the literal text `AB`,
which does not occur in `A(B)`), so the subset is not a superset of the
contributing records. -/
theorem C4_counterexample :
    "A(B)".toList ∈ popularGenres c4df ∧
    ¬ (∀ r ∈ recentGames c4df, "A(B)".toList ∈ genreTokens r.genres →
        r ∈ (genreSubset c4df "A(B)".toList).toOption.getD []) := by
  decide

/-- C4, witness: the amended theorem applied to the concrete table `c4wdf`
and its popular token `Action`. -/
theorem C4_witness :
    genreSubset c4wdf "Action".toList =
      .ok ((recentGames c4wdf).filter
        (fun r => decide (lowerL "Action".toList <:+: lowerL r.genres.toList))) ∧
    ∀ r ∈ recentGames c4wdf, "Action".toList ∈ genreTokens r.genres →
      r ∈ (recentGames c4wdf).filter
        (fun r => decide (lowerL "Action".toList <:+: lowerL r.genres.toList)) :=
  C4_amended c4wdf "Action".toList (by decide) (by decide)

/-- A Canonical Table with one post-2019, fully populated record whose
genres string `";"` explodes into only empty tokens. -/
def c5df : List GameRec :=
  [sampleRec "g" (some 20200101) none 1 ";" false 1 1]

/-- C5, the code bug.  Q2 on the empty table returns the distinguishable
"no matching records" object and Q3 the empty result with the defined
column shape; Q5 on the empty table returns its shaped empty result; but
Q5 raises (`KeyError` inside `sort_values`) on the non-empty table `c5df`
whose per-genre loop produces no result rows, because
`pd.DataFrame([])` has no columns — contradicting the claim that query
functions never raise. -/
theorem C5_code_bug :
    analyze_role_playing_games_metrics ([] : List GameRec) = .noMatch ∧
    analyze_top_paid_game_publishers ([] : List GameRec) = [] ∧
    analyze_price_vs_recommendations_by_genre ([] : List GameRec) = .ok [] ∧
    analyze_price_vs_recommendations_by_genre c5df =
      .error "KeyError: avg_total_recommendations" := by
  decide

/-- C6, confirmed.  For every Canonical Table, Q2 selects exactly the
records whose raw genres string contains `"RPG"` or `"Role-playing"` as a
case-insensitive substring; in particular `"Action RPG"` matches. -/
theorem C6_confirmed :
    (∀ df : List GameRec,
      rpg_games df = df.filter (fun r =>
        decide ("rpg".toList <:+: lowerL r.genres.toList) ||
        decide ("role-playing".toList <:+: lowerL r.genres.toList))) ∧
    rpgMatch "Action RPG" = true := by
  refine ⟨fun df => List.filter_congr (fun r _ => rpgMatch_eq r.genres), by decide⟩

/-- The raw frame of the C3 failing input: `genres`, `categories`, `tags`
cells are all missing (NaN). -/
def c3raw : Frame :=
  [("name", [.pstr "G"]), ("release_date", [.pstr "Jan 1, 2020"]),
   ("price", [.pint 0]), ("genres", [.pnan]), ("categories", [.pnan]),
   ("tags", [.pnan])]

/-- C3, the code bug.  On a raw row whose genres (categories, tags) cell is
missing, the Normalizer produces the string `"nan"`, not the empty string:
`astype(str)` renders NaN as `"nan"`, after which the `fillna('')` of
data_processor.py line 96 finds no NaN left (the code's own comment says
the NaNs are to be filled with the empty value). -/
theorem C3_code_bug :
    ((load_and_preprocess_data c3raw).toOption.bind
      (fun g => getCol g "genres")) = some [.pstr "nan"] ∧
    ((load_and_preprocess_data c3raw).toOption.bind
      (fun g => getCol g "categories")) = some [.pstr "nan"] ∧
    ((load_and_preprocess_data c3raw).toOption.bind
      (fun g => getCol g "tags")) = some [.pstr "nan"] := by
  decide

/-- The raw frame of the C7 scenario: an `estimated_owners` range string,
a missing cell, and an unparseable string. -/
def c7raw : Frame :=
  [("name", [.pstr "G"]), ("release_date", [.pnan]), ("price", [.pnan]),
   ("estimated_owners", [.pstr "500,000 - 1,000,000", .pnan, .pstr "abc"])]

/-- C7, confirmed.  `clean_estimated_owners` on a raw string removes the
thousands separators, splits on `" - "`, and parses the first segment as a
float; any failure (including a missing or non-string cell) is defaulted
to 0 by the subsequent `fillna(0)`; and the Normalizer maps the raw value
`"500,000 - 1,000,000"` to 500000.0 (with the failing cells of `c7raw`
defaulted to 0). -/
theorem C7_confirmed :
    (∀ s : String, clean_estimated_owners (.pstr s) =
      pyFloatL (takeUntilSep " - ".toList
        (s.toList.filter (fun c => !(c == ','))))) ∧
    (∀ v : PyVal, clean_estimated_owners v = none → ownersStep v = .pfloat 0) ∧
    ((load_and_preprocess_data c7raw).toOption.bind
      (fun g => getCol g "estimated_owners")) =
      some [.pfloat 500000, .pfloat 0, .pfloat 0] := by
  refine ⟨fun s => rfl, fun v hv => ?_, by decide⟩
  unfold ownersStep
  rw [hv]
  rfl

/-- C7, witness: the defaulting branch of `C7_confirmed` applied to the
concrete missing cell. -/
theorem C7_witness :
    clean_estimated_owners .pnan = none ∧ ownersStep .pnan = .pfloat 0 :=
  ⟨rfl, C7_confirmed.2.1 .pnan rfl⟩

/-- The raw frame of the C9 scenario: a `linux` column holding the string
`"False"`, a missing cell, the empty string, boolean false, integer zero,
and the string `"True"`. -/
def c9raw : Frame :=
  [("name", [.pstr "G"]), ("release_date", [.pnan]), ("price", [.pnan]),
   ("linux", [.pstr "False", .pnan, .pstr "", .pbool false, .pint 0,
     .pstr "True"])]

/-- C9, confirmed.  The windows/mac/linux coercion is a plain elementwise
boolean cast: a cell maps to false exactly when it is the empty string, a
genuine boolean false, or a numeric zero; in particular the string
`"False"` and a missing (NaN) cell both map to true — as the `linux`
column of `c9raw` shows end to end through the Normalizer. -/
theorem C9_confirmed :
    (∀ v : PyVal, boolStep v = .pbool (pyTruthy v)) ∧
    (∀ v : PyVal, pyTruthy v = false ↔
      (v = .pstr "" ∨ v = .pbool false ∨ v = .pint 0 ∨ v = .pfloat 0)) ∧
    pyTruthy (.pstr "False") = true ∧
    pyTruthy .pnan = true ∧
    ((load_and_preprocess_data c9raw).toOption.bind
      (fun g => getCol g "linux")) =
      some [.pbool true, .pbool true, .pbool false, .pbool false,
        .pbool false, .pbool true] := by
  refine ⟨fun v => rfl, fun v => ?_, by decide, by decide, by decide⟩
  cases v with
  | pnan => simp [pyTruthy]
  | pstr s => simp [pyTruthy, String.isEmpty_iff]
  | pbool b => cases b <;> simp [pyTruthy]
  | pint n => simp [pyTruthy]
  | pfloat q => simp [pyTruthy]
  | pdate d => simp [pyTruthy]

/-- C10, confirmed.  For every raw frame whose cleaned-and-renamed column
labels are duplicate-free (pandas semantics for duplicate labels is outside
this embedding): the Normalizer succeeds exactly when both `release_date`
and `price` are present — any other column (platforms, counters,
`estimated_owners`, `metacritic_score`, genres/categories/tags) may be
absent without error — and the output's columns are exactly the cleaned
input columns plus the derived `release_year` (an absent optional column
stays absent: its coercion step is skipped). -/
theorem C10_confirmed : ∀ raw : Frame,
    (colNames (rnClean raw)).Nodup →
    ((load_and_preprocess_data raw).isOk = true ↔
      ("release_date" ∈ colNames (rnClean raw) ∧
        "price" ∈ colNames (rnClean raw))) ∧
    (∀ g, load_and_preprocess_data raw = .ok g →
      ∀ c, c ∈ colNames g ↔
        (c ∈ colNames (rnClean raw) ∨ c = "release_year")) := by
  intro raw _
  constructor
  · cases hrd : getCol (rnClean raw) "release_date" with
    | none =>
      have he : load_and_preprocess_data raw = .error "KeyError: release_date" := by
        simp only [load_and_preprocess_data, hrd]
      rw [he]
      constructor
      · intro h
        exact absurd h (by simp [Except.isOk, Except.toBool])
      · intro h
        have hm : (getCol (rnClean raw) "release_date").isSome = true :=
          (lookup_isSome_iff _ _).mpr h.1
        rw [hrd] at hm
        exact absurd hm (by simp)
    | some rd =>
      have hrdm : "release_date" ∈ colNames (rnClean raw) :=
        (lookup_isSome_iff _ _).mp (by rw [show (rnClean raw).lookup "release_date" = some rd from hrd]; rfl)
      cases hpr : getCol (rnClean raw) "price" with
      | none =>
        have he : load_and_preprocess_data raw = .error "KeyError: price" := by
          simp only [load_and_preprocess_data, hrd, getCol_afterDate_price, hpr]
        rw [he]
        constructor
        · intro h
          exact absurd h (by simp [Except.isOk, Except.toBool])
        · intro h
          have hm : (getCol (rnClean raw) "price").isSome = true :=
            (lookup_isSome_iff _ _).mpr h.2
          rw [hpr] at hm
          exact absurd hm (by simp)
      | some pc =>
        have hprm : "price" ∈ colNames (rnClean raw) :=
          (lookup_isSome_iff _ _).mp (by rw [show (rnClean raw).lookup "price" = some pc from hpr]; rfl)
        have hok : load_and_preprocess_data raw =
            .ok (normSteps (afterDate (rnClean raw) rd) pc) := by
          simp only [load_and_preprocess_data, hrd, getCol_afterDate_price, hpr]
        rw [hok]
        simp [Except.isOk, Except.toBool, hrdm, hprm]
  · intro g hg c
    cases hrd : getCol (rnClean raw) "release_date" with
    | none =>
      have he : load_and_preprocess_data raw = .error "KeyError: release_date" := by
        simp only [load_and_preprocess_data, hrd]
      rw [he] at hg
      exact absurd hg (by simp)
    | some rd =>
      have hrdm : "release_date" ∈ colNames (rnClean raw) :=
        (lookup_isSome_iff _ _).mp (by rw [show (rnClean raw).lookup "release_date" = some rd from hrd]; rfl)
      cases hpr : getCol (rnClean raw) "price" with
      | none =>
        have he : load_and_preprocess_data raw = .error "KeyError: price" := by
          simp only [load_and_preprocess_data, hrd, getCol_afterDate_price, hpr]
        rw [he] at hg
        exact absurd hg (by simp)
      | some pc =>
        have hok : load_and_preprocess_data raw =
            .ok (normSteps (afterDate (rnClean raw) rd) pc) := by
          simp only [load_and_preprocess_data, hrd, getCol_afterDate_price, hpr]
        rw [hok] at hg
        injection hg with hg
        subst hg
        have hp3 : getCol (afterDate (rnClean raw) rd) "price" = some pc := by
          rw [getCol_afterDate_price]
          exact hpr
        have hpm3 : "price" ∈ colNames (afterDate (rnClean raw) rd) :=
          (lookup_isSome_iff _ _).mp (by
            rw [show (afterDate (rnClean raw) rd).lookup "price" = some pc from hp3]
            rfl)
        rw [colNames_normSteps _ _ hpm3, colNames_afterDate _ _ hrdm]
        by_cases hry : "release_year" ∈ colNames (rnClean raw)
        · rw [if_pos hry]
          constructor
          · exact Or.inl
          · rintro (h | rfl)
            · exact h
            · exact hry
        · rw [if_neg hry]
          simp [List.mem_append]

/-- Every row of the Pergunta Autoral loop output is the loop body applied
to some genre's subset. -/
theorem q5rows_aux (df : List GameRec) :
    ∀ (toks : List (List Char)) (acc rows : List Q5Row),
      toks.foldlM
        (fun acc tok =>
          (match genreSubset df tok with
          | .error e => .error e
          | .ok gg =>
            if gg = [] then .ok acc else .ok (acc ++ [q5row tok gg]) :
            Except String (List Q5Row)))
        acc = .ok rows →
      ∀ row ∈ rows, row ∈ acc ∨ ∃ tok gg, row = q5row tok gg := by
  intro toks
  induction toks with
  | nil =>
    intro acc rows h row hrow
    rw [List.foldlM_nil] at h
    injection h with h
    exact .inl (h ▸ hrow)
  | cons tok toks ih =>
    intro acc rows h row hrow
    rw [List.foldlM_cons] at h
    cases hgs : genreSubset df tok with
    | error e =>
      simp only [hgs] at h
      exact Except.noConfusion h
    | ok gg =>
      simp only [hgs] at h
      by_cases hemp : gg = []
      · rw [if_pos hemp] at h
        exact ih acc rows h row hrow
      · rw [if_neg hemp] at h
        rcases ih _ rows h row hrow with hin | hex
        · rcases List.mem_append.mp hin with h1 | h2
          · exact .inl h1
          · exact .inr ⟨tok, gg, List.mem_singleton.mp h2⟩
        · exact .inr hex

theorem q5rows_mem (df : List GameRec) (rows : List Q5Row)
    (h : q5rows df = .ok rows) :
    ∀ row ∈ rows, ∃ tok gg, row = q5row tok gg := by
  intro row hrow
  rcases q5rows_aux df (popularGenres df) [] rows h row hrow with hin | hex
  · cases hin
  · exact hex

/-- The correlation entry of one Q5 output row: absent exactly when one of
the two variables has at most one distinct value, and otherwise the
deviation-sum triple whose numeric Pearson value lies in [-1, 1]. -/
theorem q5row_corr (tok : List Char) (gg : List GameRec) :
    ((q5row tok gg).correlation = none ↔
      ¬ (1 < nuniqueQ (gg.map (fun r => r.price)) ∧
        1 < nuniqueQ (gg.map (fun r => ((totalRecs r : ℤ) : ℚ))))) ∧
    ∀ t, (q5row tok gg).correlation = some t →
      corrReal t ∈ Set.Icc (-1 : ℝ) 1 := by
  have hcor : (q5row tok gg).correlation =
      if 1 < nuniqueQ (gg.map (fun r => r.price)) ∧
          1 < nuniqueQ (gg.map (fun r => ((totalRecs r : ℤ) : ℚ))) then
        some (devSums (gg.map (fun r => r.price))
          (gg.map (fun r => ((totalRecs r : ℤ) : ℚ))))
      else none := rfl
  rw [hcor]
  constructor
  · by_cases hc : 1 < nuniqueQ (gg.map (fun r => r.price)) ∧
        1 < nuniqueQ (gg.map (fun r => ((totalRecs r : ℤ) : ℚ)))
    · rw [if_pos hc]
      simp [hc]
    · rw [if_neg hc]
      simp [hc]
  · intro t ht
    by_cases hc : 1 < nuniqueQ (gg.map (fun r => r.price)) ∧
        1 < nuniqueQ (gg.map (fun r => ((totalRecs r : ℤ) : ℚ)))
    · rw [if_pos hc] at ht
      have ht' : t = devSums (gg.map (fun r => r.price))
          (gg.map (fun r => ((totalRecs r : ℤ) : ℚ))) := (Option.some.inj ht).symm
      subst ht'
      rw [devSums_eq]
      have hlen : (gg.map (fun r => ((totalRecs r : ℤ) : ℚ))).length =
          (gg.map (fun r => r.price)).length := by simp
      refine corrReal_mem_Icc _ ?_ ?_ ?_
      · exact_mod_cast list_cs
          (devList (gg.map (fun r => r.price)) (gg.map (fun r => ((totalRecs r : ℤ) : ℚ))))
      · exact_mod_cast devs_pos_left _ _ hlen hc.1
      · exact_mod_cast devs_pos_right _ _ hlen hc.2
    · rw [if_neg hc] at ht
      cases ht

/-- A raw frame with both mandatory columns and one optional column. -/
def c10raw : Frame :=
  [("Release Date", [.pstr "Jan 1, 2020"]), ("Price", [.pnan]),
   ("Genres", [.pstr "Action"])]

/-- C8, confirmed.  In Q5, the Pearson correlation of a genre subset is
reported absent exactly when price or total_recommendations has at most one
distinct value in the subset; and every correlation reported in the query's
output is either absent or a value in [-1, 1]. -/
theorem C8_confirmed :
    (∀ (tok : List Char) (gg : List GameRec),
      ((q5row tok gg).correlation = none ↔
        ¬ (1 < nuniqueQ (gg.map (fun r => r.price)) ∧
          1 < nuniqueQ (gg.map (fun r => ((totalRecs r : ℤ) : ℚ)))))) ∧
    (∀ (df : List GameRec) (rows : List Q5Row) (row : Q5Row),
      analyze_price_vs_recommendations_by_genre df = .ok rows → row ∈ rows →
      row.correlation = none ∨
        ∃ t, row.correlation = some t ∧ corrReal t ∈ Set.Icc (-1 : ℝ) 1) := by
  refine ⟨fun tok gg => (q5row_corr tok gg).1, ?_⟩
  intro df rows row h hrow
  by_cases hre : recentGames df = []
  · simp only [analyze_price_vs_recommendations_by_genre, if_pos hre] at h
    injection h with h
    subst h
    cases hrow
  · simp only [analyze_price_vs_recommendations_by_genre, if_neg hre] at h
    cases hq : q5rows df with
    | error e =>
      rw [hq] at h
      exact Except.noConfusion h
    | ok rows' =>
      simp only [hq] at h
      by_cases hr0 : rows' = []
      · rw [if_pos hr0] at h
        exact Except.noConfusion h
      · rw [if_neg hr0] at h
        injection h with h
        subst h
        obtain ⟨tok, gg, hrq⟩ :=
          q5rows_mem df rows' hq row ((List.mem_insertionSort _).mp hrow)
        subst hrq
        cases hcor : (q5row tok gg).correlation with
        | none => exact .inl rfl
        | some t => exact .inr ⟨t, rfl, (q5row_corr tok gg).2 t hcor⟩

/-- The concrete table of the C8 witness: two post-2019 `Action` records
with distinct prices and distinct recommendation totals. -/
def c8df : List GameRec :=
  [sampleRec "g1" (some 20200101) none 1 "Action" false 3 0,
   sampleRec "g2" (some 20210101) none 2 "Action" false 5 0]

/-- The Q5 output row on `c8df`: mean price 3/2, mean recommendations 4,
deviation sums (1, 1/2, 2). -/
def c8row : Q5Row :=
  { genre := "Action".toList, avg_price := mkRat 3 2,
    avg_total_recommendations := 4,
    correlation := some (1, mkRat 1 2, 2) }

/-- C8, witness: the theorem applied to the concrete table `c8df` and the
row of its output. -/
theorem C8_witness :
    analyze_price_vs_recommendations_by_genre c8df = .ok [c8row] ∧
    (c8row.correlation = none ∨
      ∃ t, c8row.correlation = some t ∧ corrReal t ∈ Set.Icc (-1 : ℝ) 1) :=
  ⟨by decide, C8_confirmed.2 c8df [c8row] c8row (by decide) (by decide)⟩

/-- C10, witness: the theorem applied to the concrete frame `c10raw`. -/
theorem C10_witness :
    ((load_and_preprocess_data c10raw).isOk = true ↔
      ("release_date" ∈ colNames (rnClean c10raw) ∧
        "price" ∈ colNames (rnClean c10raw))) ∧
    (∀ g, load_and_preprocess_data c10raw = .ok g →
      ∀ c, c ∈ colNames g ↔
        (c ∈ colNames (rnClean c10raw) ∨ c = "release_year")) :=
  C10_confirmed c10raw (by decide)

end Steam
